import Mathlib

/-!
# Verification of the srlopt function-optimization environment

Shallow embedding of `src/sarlopt/environments/tf_function_env_v2.py`
(the `TFFunctionEnvV2` state machine) and of the baseline optimizers
`GD` and `NAG` from `src/experiments/evaluation/utils.py`.

Conventions of the embedding:
* `tf.float32` tensors are modelled over `ℚ` (the claims under scrutiny
  concern control flow and exact algebra — clipping, negation, `min` —
  none of which depends on rounding).
* A position tensor of shape `(1, dims)` is modelled as a `List ℚ` of
  length `dims` (the leading batch dimension of size 1 is dropped; the
  surrounding `tf_agents` machinery batches and unbatches it).
* The seeded counter-based generator (`tf.random.Generator.from_seed`,
  Philox) is modelled as an abstract `RandomStream`: a pure function
  from the draw counter to the draw, fixed at construction from the
  seed.  Each scalar component consumed advances the counter by one.
* The eager (sequential) execution order of the graph operations is
  used, matching the program order of the Python source: position
  update, then step-counter increment, then episode-ended evaluation,
  then time-step construction.
* A TensorFlow runtime error (shape mismatch on `state + action` or on
  `Variable.assign`) is modelled as `Except.error`; the mutable
  variables keep the values they held before the failing operation.
-/

/-- Model of `tf.clip_by_value(x, a, b) = minimum(maximum(x, a), b)`. -/
def clipQ (x a b : ℚ) : ℚ := min (max x a) b

/-- Clip every component of a vector into `[a, b]`
(`tf.clip_by_value` on a rank-1 tensor). -/
def clipVec (xs : List ℚ) (a b : ℚ) : List ℚ := xs.map (fun x => clipQ x a b)

/-- Model of one seeded counter-based random generator
(`tf.random.Generator.from_seed(seed, alg)`): `unit c` is the `c`-th
uniform draw in `[0, 1)` and `nat c` the `c`-th raw integer draw. -/
structure RandomStream where
  unit : ℕ → ℚ
  nat : ℕ → ℕ

/-- A generator algorithm (e.g. Philox) maps a seed to a stream. -/
def RandomStream.fromSeed (alg : ℕ → RandomStream) (seed : ℕ) : RandomStream :=
  alg seed

/-- The stream is a faithful model of `tf.random` only when every unit
draw lies in `[0, 1)`. -/
def WFStream (rs : RandomStream) : Prop :=
  ∀ c, 0 ≤ rs.unit c ∧ rs.unit c < 1

/-- Model of `rng.uniform(shape=(), minval=a, maxval=b)`: the unit draw at
counter `c`, scaled affinely into `[a, b)`. -/
def uniformScaled (rs : RandomStream) (c : ℕ) (a b : ℚ) : ℚ :=
  a + rs.unit c * (b - a)

/-- Model of `rng.uniform(shape=(), minval=0, maxval=n, dtype=tf.int32)`:
an integer draw in `[0, n)`. -/
def uniformNat (rs : RandomStream) (c : ℕ) (n : ℕ) : ℕ :=
  rs.nat c % n

/-- Box domain of an objective function (`optfuncs` `Domain`):
per-coordinate bounds, shared by all coordinates. -/
structure FnDomain where
  dmin : ℚ
  dmax : ℚ
  deriving DecidableEq, Repr

/-- External objective-function capability
(`optfuncs.tensorflow_functions.TensorflowFunction`): a name, a box
domain, a scalar evaluation and a gradient. -/
structure ObjectiveFn where
  name : String
  domain : FnDomain
  evaluate : List ℚ → ℚ
  gradient : List ℚ → List ℚ

/-- The `tf_agents` step types. -/
inductive StepType where
  | FIRST
  | MID
  | LAST
  deriving DecidableEq, Repr

/-- The time-step record `ts.TimeStep(step_type, reward, discount,
observation)`. -/
structure TimeStep where
  step_type : StepType
  reward : ℚ
  discount : ℚ
  observation : List ℚ
  deriving DecidableEq, Repr

/-- The mutable variables of `TFFunctionEnvV2` plus the generator
counter (the generator is the only other mutable resource). -/
structure EnvState where
  state : List ℚ
  fn_index : ℕ
  steps_taken : ℤ
  episode_ended : Bool
  rng_counter : ℕ
  deriving DecidableEq, Repr

/-- The immutable configuration of `TFFunctionEnvV2` fixed by
`__init__`: the catalog, dimensionality, episode duration, and the
domain bounds taken from the catalog's first function. -/
structure Env where
  functions : List ObjectiveFn
  dims : ℕ
  duration : ℤ
  domain_min : ℚ
  domain_max : ℚ

/-- Model of `tf.switch_case(fn_index, branches)` over the catalog evaluators
(`_fn_evaluator`): dispatch to the `i`-th function.  TensorFlow raises
for an out-of-range branch index; that case is unreachable because
`fn_index` is always drawn in `[0, len(functions))`. -/
def evalCatalog (fns : List ObjectiveFn) (i : ℕ) (x : List ℚ) : ℚ :=
  match fns[i]? with
  | some f => f.evaluate x
  | none => 0

/-- Model of `TFFunctionEnvV2._current_time_step`: a pure read of the current
variables.  `tf.case` checks `steps_taken <= 0` (FIRST, reward 0) then
`episode_ended` (LAST) with MID as default; the reward of MID/LAST is
the negated active-function value at the current state, and the
discount is the constant `1.0` in every branch. -/
def currentTimeStep (env : Env) (s : EnvState) : TimeStep :=
  let fval := evalCatalog env.functions s.fn_index s.state
  if s.steps_taken ≤ 0 then
    { step_type := .FIRST, reward := 0, discount := 1, observation := s.state }
  else if s.episode_ended then
    { step_type := .LAST, reward := -fval, discount := 1, observation := s.state }
  else
    { step_type := .MID, reward := -fval, discount := 1, observation := s.state }

/-- Model of `TFFunctionEnvV2._reset`: clear `episode_ended` and `steps_taken`,
redraw the position uniformly in the domain (one unit draw per
coordinate) and the function index uniformly in `[0, len(functions))`,
then return `current_time_step()` of the new variables. -/
def envReset (env : Env) (rs : RandomStream) (s : EnvState) : EnvState × TimeStep :=
  let c := s.rng_counter
  let pos := (List.range env.dims).map
    (fun i => uniformScaled rs (c + i) env.domain_min env.domain_max)
  let idx := uniformNat rs (c + env.dims) env.functions.length
  let s' : EnvState :=
    { state := pos, fn_index := idx, steps_taken := 0,
      episode_ended := false, rng_counter := c + env.dims + 1 }
  (s', currentTimeStep env s')

/-- NumPy/TensorFlow broadcasting of `state + action` for a state of
shape `(1, dims)` and a rank-1 action, followed by the `assign` back
into the shape-`(1, dims)` variable: the addition succeeds elementwise
when the lengths agree, broadcasts when the action has length 1, and
otherwise the net effect is a runtime error before any variable is
assigned (either the addition itself or the subsequent
`state.assign(new_state)` raises). -/
def broadcastAdd (state action : List ℚ) : Option (List ℚ) :=
  if action.length = state.length then
    some (List.zipWith (· + ·) state action)
  else if action.length = 1 then
    some (state.map (fun x => x + action.headI))
  else
    none

/-- Model of `TFFunctionEnvV2._step`: if `episode_ended` holds the action is
never read and `reset()` runs instead; otherwise the new position is
the clipped sum of the old position and the action, the step counter
is incremented, `episode_ended` is set when the incremented counter
reaches `duration`, and `current_time_step()` of the updated variables
is returned.  A shape error leaves every variable unchanged. -/
def envStep (env : Env) (rs : RandomStream) (s : EnvState) (action : List ℚ) :
    EnvState × Except String TimeStep :=
  if s.episode_ended then
    let r := envReset env rs s
    (r.1, .ok r.2)
  else
    match broadcastAdd s.state action with
    | none => (s, .error "InvalidArgumentError: incompatible shapes")
    | some summed =>
      let new_state := clipVec summed env.domain_min env.domain_max
      let steps' := s.steps_taken + 1
      let ended' := if steps' ≥ env.duration then true else s.episode_ended
      let s' : EnvState :=
        { s with state := new_state, steps_taken := steps', episode_ended := ended' }
      (s', .ok (currentTimeStep env s'))

/-- Model of `TFFunctionEnvV2.__init__`: records the configuration, reads the
domain off `functions[0]` (an `IndexError` when the catalog is empty —
the only construction-time failure), initializes `episode_ended` to
false and `steps_taken` to 0, draws the initial position uniformly in
the domain and the initial function index uniformly in
`[0, len(functions))` from the fresh generator.  No validation of
`dims`, `duration`, or cross-function domain agreement is performed. -/
def mkEnv (rs : RandomStream) (functions : List ObjectiveFn) (dims : ℕ)
    (duration : ℤ) : Except String (Env × EnvState) :=
  match functions with
  | [] => .error "IndexError: list index out of range"
  | f0 :: _ =>
    let env : Env :=
      { functions := functions, dims := dims, duration := duration,
        domain_min := f0.domain.dmin, domain_max := f0.domain.dmax }
    let pos := (List.range dims).map
      (fun i => uniformScaled rs i env.domain_min env.domain_max)
    let idx := uniformNat rs dims functions.length
    .ok (env,
      { state := pos, fn_index := idx, steps_taken := 0,
        episode_ended := false, rng_counter := dims + 1 })

/-- Iterated `step` calls: `iterSteps env rs a s n` is the state and
the last returned time step after `n` successive `step (a i)` calls
from `s` (for `n = 0`, `current_time_step()` of `s`). -/
def iterSteps (env : Env) (rs : RandomStream) (a : ℕ → List ℚ) (s : EnvState) :
    ℕ → EnvState × Except String TimeStep
  | 0 => (s, .ok (currentTimeStep env s))
  | n + 1 =>
    let p := iterSteps env rs a s n
    envStep env rs p.1 (a n)

/-- One driver call: explicit `reset()` or `step(action)`. -/
inductive EnvCall where
  | reset
  | step (action : List ℚ)

/-- Run a sequence of driver calls, collecting the returned time
steps. -/
def runCalls (env : Env) (rs : RandomStream) :
    EnvState → List EnvCall → List (Except String TimeStep) × EnvState
  | s, [] => ([], s)
  | s, .reset :: rest =>
    let r := envReset env rs s
    let t := runCalls env rs r.1 rest
    (.ok r.2 :: t.1, t.2)
  | s, .step a :: rest =>
    let r := envStep env rs s a
    let t := runCalls env rs r.1 rest
    (r.2 :: t.1, t.2)

/-! ## Baseline optimizers (`src/experiments/evaluation/utils.py`) -/

/-- Model of `gd_lrs.get(function.name, 1e-2)`: the per-function learning-rate
table for Gradient Descent, with default `1e-2`. -/
def gd_lrs (name : String) : ℚ :=
  if name = "F1" then 1/10
  else if name = "F2" then 1/100
  else if name = "F3" then 1/10000
  else if name = "F4" then 1/10000
  else if name = "F5" then 1/100
  else if name = "F6" then 1/10
  else if name = "F7" then 1/10
  else if name = "F8" then 1/10000
  else 1/100

/-- Model of `nag_params.get(function.name, (1e-2, 0.8))`: the per-function
(learning-rate, momentum) table for NAG, with default `(1e-2, 0.8)`. -/
def nag_params (name : String) : ℚ × ℚ :=
  if name = "F1" then (1/10, 1/2)
  else if name = "F2" then (1/1000, 1/2)
  else if name = "F3" then (1/10000, 9/10)
  else if name = "F4" then (1/10000, 9/10)
  else if name = "F5" then (1/10, 8/10)
  else if name = "F6" then (1/1000, 9/10)
  else if name = "F7" then (1/10, 9/10)
  else if name = "F8" then (1/10000, 9/10)
  else (1/100, 8/10)

/-- The position update of one GD iteration:
`pos = clip(pos - grads * lr, domain.min, domain.max)`. -/
def gdUpdate (f : ObjectiveFn) (lr : ℚ) (pos : List ℚ) : List ℚ :=
  clipVec (List.zipWith (fun p g => p - g * lr) pos (f.gradient pos))
    f.domain.dmin f.domain.dmax

/-- The loop body of `GD`, carrying the remaining iteration count, the
current iteration index `t`, the position, the `best_solutions` list in
reverse (its head is the running best), and `best_it`. -/
def GDgo (f : ObjectiveFn) (lr : ℚ) :
    ℕ → ℕ → List ℚ → List ℚ → ℕ → List ℚ × ℕ
  | 0, _, _, bestsRev, best_it => (bestsRev.reverse, best_it)
  | n + 1, t, pos, bestsRev, best_it =>
    let pos' := gdUpdate f lr pos
    let y := f.evaluate pos'
    let prevBest := bestsRev.headI
    let best_it' := if y < prevBest then t else best_it
    GDgo f lr n (t + 1) pos' (min y prevBest :: bestsRev) best_it'

/-- Model of `GD(function, pos, steps)`: gradient descent with the tabulated
learning rate, returning `(best_solutions, best_it)` where
`best_solutions` starts at `function(pos)` and appends
`min(y, best_solutions[-1])` each iteration. -/
def GD (f : ObjectiveFn) (pos : List ℚ) (steps : ℕ) : List ℚ × ℕ :=
  GDgo f (gd_lrs f.name) steps 0 pos [f.evaluate pos] 0

/-- The state update of one NAG iteration on `(pos, velocity)`:
gradient at the clipped momentum-projected point, then
`velocity = momentum * velocity - grads * lr` and
`pos = clip(pos + velocity, domain.min, domain.max)`. -/
def nagUpdate (f : ObjectiveFn) (lr momentum : ℚ) (pv : List ℚ × List ℚ) :
    List ℚ × List ℚ :=
  let projected := clipVec
    (List.zipWith (fun p v => p + momentum * v) pv.1 pv.2)
    f.domain.dmin f.domain.dmax
  let grads := f.gradient projected
  let velocity' := List.zipWith (fun v g => momentum * v - g * lr) pv.2 grads
  let pos' := clipVec (List.zipWith (· + ·) pv.1 velocity')
    f.domain.dmin f.domain.dmax
  (pos', velocity')

/-- The loop body of `NAG`, carrying the remaining iteration count,
the current iteration index `t`, the `(pos, velocity)` pair, the
`best_solutions` list in reverse, and `best_it`. -/
def NAGgo (f : ObjectiveFn) (lr momentum : ℚ) :
    ℕ → ℕ → List ℚ × List ℚ → List ℚ → ℕ → List ℚ × ℕ
  | 0, _, _, bestsRev, best_it => (bestsRev.reverse, best_it)
  | n + 1, t, pv, bestsRev, best_it =>
    let pv' := nagUpdate f lr momentum pv
    let y := f.evaluate pv'.1
    let prevBest := bestsRev.headI
    let best_it' := if y < prevBest then t else best_it
    NAGgo f lr momentum n (t + 1) pv' (min y prevBest :: bestsRev) best_it'

/-- Model of `NAG(function, pos, steps)`: Nesterov accelerated gradient with the
tabulated hyperparameters, starting from zero velocity, returning
`(best_solutions, best_it)` with the same best-tracking as `GD`. -/
def NAG (f : ObjectiveFn) (pos : List ℚ) (steps : ℕ) : List ℚ × ℕ :=
  let p := nag_params f.name
  NAGgo f p.1 p.2 steps 0 (pos, List.replicate pos.length 0)
    [f.evaluate pos] 0

/-- The GD position trajectory: `gdPosIter f lr pos i` is the position
after `i` GD iterations (the points at which `GD` evaluates `f`). -/
def gdPosIter (f : ObjectiveFn) (lr : ℚ) (pos : List ℚ) : ℕ → List ℚ
  | 0 => pos
  | i + 1 => gdUpdate f lr (gdPosIter f lr pos i)

/-- The NAG `(pos, velocity)` trajectory. -/
def nagIter (f : ObjectiveFn) (lr momentum : ℚ) (pv : List ℚ × List ℚ) :
    ℕ → List ℚ × List ℚ
  | 0 => pv
  | i + 1 => nagUpdate f lr momentum (nagIter f lr momentum pv i)

/-- The objective values `GD` observes: entry `i` is the evaluation at
iteration `i` (entry 0 is the initial position's value). -/
def gdVals (f : ObjectiveFn) (pos : List ℚ) (i : ℕ) : ℚ :=
  f.evaluate (gdPosIter f (gd_lrs f.name) pos i)

/-- The objective values `NAG` observes. -/
def nagVals (f : ObjectiveFn) (pos : List ℚ) (i : ℕ) : ℚ :=
  f.evaluate
    (nagIter f (nag_params f.name).1 (nag_params f.name).2
      (pos, List.replicate pos.length 0) i).1

/-! ## Concrete instances used by witnesses and counterexamples -/

/-- The 2-norm-squared (sphere) objective on the box `[-5, 5]`, the
concrete function of the spec's worked scenario. -/
def sphereFn : ObjectiveFn where
  name := "Sphere"
  domain := { dmin := -5, dmax := 5 }
  evaluate := fun x => (x.map (fun v => v * v)).sum
  gradient := fun x => x.map (fun v => 2 * v)

/-- A sphere objective with a different box, for the mismatched-domain
scenario. -/
def sphereFnWide : ObjectiveFn where
  name := "SphereWide"
  domain := { dmin := -10, dmax := 10 }
  evaluate := fun x => (x.map (fun v => v * v)).sum
  gradient := fun x => x.map (fun v => 2 * v)

/-- A concrete well-formed random stream: every unit draw is `1/2`,
the `c`-th raw integer draw is `c`. -/
def constStream : RandomStream where
  unit := fun _ => 1/2
  nat := fun c => c

/-! ## Concrete environments for witnesses and counterexamples -/

/-- The configuration built by `mkEnv constStream [sphereFn] 1 3`. -/
def envW : Env :=
  { functions := [sphereFn], dims := 1, duration := 3,
    domain_min := -5, domain_max := 5 }

/-- Same configuration with episode duration 1. -/
def envD1 : Env :=
  { functions := [sphereFn], dims := 1, duration := 1,
    domain_min := -5, domain_max := 5 }

/-- Same configuration with dimensionality 2 and duration 5. -/
def envD2 : Env :=
  { functions := [sphereFn], dims := 2, duration := 5,
    domain_min := -5, domain_max := 5 }

/-- The variables right after construction with `constStream`,
dimensionality 1: position `[0]`, function index 0. -/
def stW : EnvState :=
  { state := [0], fn_index := 0, steps_taken := 0,
    episode_ended := false, rng_counter := 2 }

/-- The post-construction variables for dimensionality 2. -/
def stD2 : EnvState :=
  { state := [0, 0], fn_index := 0, steps_taken := 0,
    episode_ended := false, rng_counter := 3 }

/-- A terminal state (episode over after 3 steps). -/
def stT : EnvState :=
  { state := [3], fn_index := 0, steps_taken := 3,
    episode_ended := true, rng_counter := 2 }


/-- Spec-side view of the best-tracking loop: the tail of values the
loop appends after the accumulator holds running best `m` at point
`x`, for `n` more iterations. -/
def minsFrom {σ : Type} (stp : σ → σ) (val : σ → ℚ) : σ → ℚ → ℕ → List ℚ
  | _, _, 0 => []
  | x, m, n + 1 =>
    min (val (stp x)) m :: minsFrom stp val (stp x) (min (val (stp x)) m) n

/-- The running best after `k` more iterations from point `x` with
current best `m`. -/
def runBest {σ : Type} (stp : σ → σ) (val : σ → ℚ) : σ → ℚ → ℕ → ℚ
  | _, m, 0 => m
  | x, m, k + 1 => runBest stp val (stp x) (min (val (stp x)) m) k


theorem constStream_wf : WFStream constStream := by
  intro c
  constructor <;> norm_num [constStream]

/-! ## Basic lemmas about clipping, draws, and the state machine -/

lemma clipQ_mem (x : ℚ) {a b : ℚ} (hab : a ≤ b) :
    a ≤ clipQ x a b ∧ clipQ x a b ≤ b := by
  unfold clipQ
  constructor
  · exact le_min (le_max_right x a) hab
  · exact min_le_right _ _

lemma clipVec_mem {xs : List ℚ} {a b : ℚ} (hab : a ≤ b) :
    ∀ y ∈ clipVec xs a b, a ≤ y ∧ y ≤ b := by
  intro y hy
  rcases List.mem_map.mp hy with ⟨x, _, rfl⟩
  exact clipQ_mem x hab

lemma clipVec_length (xs : List ℚ) (a b : ℚ) :
    (clipVec xs a b).length = xs.length := by
  simp [clipVec]

lemma uniformScaled_mem {rs : RandomStream} (hwf : WFStream rs) (c : ℕ)
    {a b : ℚ} (hab : a ≤ b) :
    a ≤ uniformScaled rs c a b ∧ uniformScaled rs c a b ≤ b := by
  obtain ⟨h0, h1⟩ := hwf c
  unfold uniformScaled
  constructor
  · nlinarith
  · nlinarith

lemma uniformNat_lt (rs : RandomStream) (c : ℕ) {n : ℕ} (hn : 0 < n) :
    uniformNat rs c n < n :=
  Nat.mod_lt _ hn

lemma envReset_fst (env : Env) (rs : RandomStream) (s : EnvState) :
    (envReset env rs s).1 =
      { state := (List.range env.dims).map
          (fun i => uniformScaled rs (s.rng_counter + i) env.domain_min env.domain_max),
        fn_index := uniformNat rs (s.rng_counter + env.dims) env.functions.length,
        steps_taken := 0,
        episode_ended := false,
        rng_counter := s.rng_counter + env.dims + 1 } := rfl

lemma envReset_snd (env : Env) (rs : RandomStream) (s : EnvState) :
    (envReset env rs s).2 = currentTimeStep env (envReset env rs s).1 := rfl

lemma envReset_state_length (env : Env) (rs : RandomStream) (s : EnvState) :
    (envReset env rs s).1.state.length = env.dims := by
  simp [envReset_fst]

lemma envReset_state_mem {rs : RandomStream} (hwf : WFStream rs) {env : Env}
    (hab : env.domain_min ≤ env.domain_max) (s : EnvState) :
    ∀ x ∈ (envReset env rs s).1.state,
      env.domain_min ≤ x ∧ x ≤ env.domain_max := by
  intro x hx
  rw [envReset_fst] at hx
  simp only [List.mem_map] at hx
  rcases hx with ⟨i, _, rfl⟩
  exact uniformScaled_mem hwf _ hab

lemma envReset_first (env : Env) (rs : RandomStream) (s : EnvState) :
    (envReset env rs s).2.step_type = .FIRST ∧
    (envReset env rs s).2.reward = 0 := by
  rw [envReset_snd, envReset_fst]
  constructor <;> rfl

lemma envStep_of_ended (env : Env) (rs : RandomStream) {s : EnvState}
    (h : s.episode_ended = true) (a : List ℚ) :
    envStep env rs s a = ((envReset env rs s).1, .ok (envReset env rs s).2) := by
  simp [envStep, h]

lemma broadcastAdd_same {state action : List ℚ}
    (h : action.length = state.length) :
    broadcastAdd state action = some (List.zipWith (· + ·) state action) := by
  simp [broadcastAdd, h]

lemma broadcastAdd_none {state action : List ℚ}
    (h1 : action.length ≠ state.length) (h2 : action.length ≠ 1) :
    broadcastAdd state action = none := by
  simp [broadcastAdd, h1, h2]

lemma envStep_fst_of_not_ended (env : Env) (rs : RandomStream) {s : EnvState}
    (he : s.episode_ended = false) {a : List ℚ}
    (hl : a.length = s.state.length) :
    (envStep env rs s a).1 =
      { s with
        state := clipVec (List.zipWith (· + ·) s.state a)
          env.domain_min env.domain_max,
        steps_taken := s.steps_taken + 1,
        episode_ended :=
          if s.steps_taken + 1 ≥ env.duration then true else false } := by
  simp [envStep, he, broadcastAdd_same hl]

lemma envStep_snd_of_not_ended (env : Env) (rs : RandomStream) {s : EnvState}
    (he : s.episode_ended = false) {a : List ℚ}
    (hl : a.length = s.state.length) :
    (envStep env rs s a).2 =
      .ok (currentTimeStep env (envStep env rs s a).1) := by
  simp [envStep, he, broadcastAdd_same hl]

lemma envStep_error (env : Env) (rs : RandomStream) {s : EnvState}
    (he : s.episode_ended = false) {a : List ℚ}
    (h1 : a.length ≠ s.state.length) (h2 : a.length ≠ 1) :
    envStep env rs s a = (s, .error "InvalidArgumentError: incompatible shapes") := by
  simp [envStep, he, broadcastAdd_none h1 h2]

lemma envStep_ok_snd (env : Env) (rs : RandomStream) (s : EnvState)
    (a : List ℚ) {t : TimeStep} (h : (envStep env rs s a).2 = .ok t) :
    t = currentTimeStep env (envStep env rs s a).1 := by
  by_cases he : s.episode_ended = true
  · rw [envStep_of_ended env rs he a] at h ⊢
    rw [envReset_snd] at h
    exact (Except.ok.inj h).symm
  · simp only [Bool.not_eq_true] at he
    rcases h3 : broadcastAdd s.state a with _ | summed
    · rw [show envStep env rs s a = (s, .error "InvalidArgumentError: incompatible shapes") by
        simp [envStep, he, h3]] at h
      exact absurd h (by simp)
    · rw [show (envStep env rs s a).2 = .ok (currentTimeStep env (envStep env rs s a).1) by
        simp [envStep, he, h3]] at h
      exact (Except.ok.inj h).symm

lemma currentTimeStep_of_first {env : Env} {s : EnvState}
    (h : s.steps_taken ≤ 0) :
    currentTimeStep env s =
      { step_type := .FIRST, reward := 0, discount := 1,
        observation := s.state } := by
  simp [currentTimeStep, h]

lemma currentTimeStep_of_last {env : Env} {s : EnvState}
    (h1 : ¬ s.steps_taken ≤ 0) (h2 : s.episode_ended = true) :
    currentTimeStep env s =
      { step_type := .LAST,
        reward := -(evalCatalog env.functions s.fn_index s.state),
        discount := 1, observation := s.state } := by
  simp [currentTimeStep, h1, h2]

lemma currentTimeStep_of_mid {env : Env} {s : EnvState}
    (h1 : ¬ s.steps_taken ≤ 0) (h2 : s.episode_ended = false) :
    currentTimeStep env s =
      { step_type := .MID,
        reward := -(evalCatalog env.functions s.fn_index s.state),
        discount := 1, observation := s.state } := by
  simp [currentTimeStep, h1, h2]

lemma currentTimeStep_discount (env : Env) (s : EnvState) :
    (currentTimeStep env s).discount = 1 := by
  unfold currentTimeStep
  split
  · rfl
  · split <;> rfl

lemma currentTimeStep_observation (env : Env) (s : EnvState) :
    (currentTimeStep env s).observation = s.state := by
  unfold currentTimeStep
  split
  · rfl
  · split <;> rfl

lemma currentTimeStep_reward (env : Env) (s : EnvState) :
    ((currentTimeStep env s).step_type = .FIRST →
      (currentTimeStep env s).reward = 0) ∧
    ((currentTimeStep env s).step_type ≠ .FIRST →
      (currentTimeStep env s).reward
        = -(evalCatalog env.functions s.fn_index s.state)) := by
  unfold currentTimeStep
  split
  · exact ⟨fun _ => rfl, fun h => absurd rfl h⟩
  · split <;> exact ⟨(fun h => nomatch h), fun _ => rfl⟩

/-- Helper: members of a step result that returned a time step lie in
the domain (either branch of `_step` produces a clipped or freshly
drawn position). -/
lemma envStep_ok_state_mem {rs : RandomStream} (hwf : WFStream rs)
    {env : Env} (hd : env.domain_min ≤ env.domain_max)
    (s : EnvState) (a : List ℚ) {t : TimeStep}
    (h : (envStep env rs s a).2 = .ok t) :
    ∀ x ∈ (envStep env rs s a).1.state,
      env.domain_min ≤ x ∧ x ≤ env.domain_max := by
  by_cases he : s.episode_ended = true
  · rw [envStep_of_ended env rs he a]
    exact envReset_state_mem hwf hd s
  · simp only [Bool.not_eq_true] at he
    rcases h3 : broadcastAdd s.state a with _ | summed
    · rw [show envStep env rs s a
          = (s, .error "InvalidArgumentError: incompatible shapes") by
        simp [envStep, he, h3]] at h
      exact absurd h (by simp)
    · rw [show (envStep env rs s a).1
          = { s with
              state := clipVec summed env.domain_min env.domain_max,
              steps_taken := s.steps_taken + 1,
              episode_ended :=
                if s.steps_taken + 1 ≥ env.duration then true
                else s.episode_ended } by
        simp [envStep, he, h3]]
      exact clipVec_mem hd

lemma mkEnv_envW : mkEnv constStream [sphereFn] 1 3 = .ok (envW, stW) := by
  norm_num [mkEnv, uniformScaled, uniformNat, constStream, envW, stW,
    sphereFn, List.range_succ]

lemma mkEnv_envD1 : mkEnv constStream [sphereFn] 1 1 = .ok (envD1, stW) := by
  norm_num [mkEnv, uniformScaled, uniformNat, constStream, envD1, stW,
    sphereFn, List.range_succ]

lemma mkEnv_envD2 : mkEnv constStream [sphereFn] 2 5 = .ok (envD2, stD2) := by
  norm_num [mkEnv, uniformScaled, uniformNat, constStream, envD2, stD2,
    sphereFn, List.range_succ]

/-! ## Claim C2 -/

/-- C2: every time step returned by `step()` or `current_time_step()`
that is not FIRST has reward equal to the negated active-function value
at its observation, and every FIRST time step has reward 0.  (`step`
and `reset` return `current_time_step()` of the updated variables, so
the first two conjuncts cover their outputs as well.) -/
theorem C2_reward_negation (env : Env) (rs : RandomStream) (s : EnvState) :
    ((currentTimeStep env s).step_type = .FIRST →
      (currentTimeStep env s).reward = 0) ∧
    ((currentTimeStep env s).step_type ≠ .FIRST →
      (currentTimeStep env s).reward
        = -(evalCatalog env.functions s.fn_index
            (currentTimeStep env s).observation)) ∧
    (∀ a t, (envStep env rs s a).2 = .ok t →
      t = currentTimeStep env (envStep env rs s a).1) ∧
    (envReset env rs s).2 = currentTimeStep env (envReset env rs s).1 := by
  refine ⟨(currentTimeStep_reward env s).1, ?_, ?_, envReset_snd env rs s⟩
  · rw [currentTimeStep_observation]
    exact (currentTimeStep_reward env s).2
  · intro a t h
    exact envStep_ok_snd env rs s a h

/-! ## Claim C3 -/

/-- C3: every observation returned by `reset` or by a non-failing
`step` lies in `[domain_min, domain_max]` component-wise, and the new
position of a non-terminal step is exactly
`clip(old_position + action, domain_min, domain_max)`. -/
theorem C3_domain_containment (env : Env) (rs : RandomStream)
    (hwf : WFStream rs) (hd : env.domain_min ≤ env.domain_max) :
    (∀ s, ∀ x ∈ (envReset env rs s).2.observation,
      env.domain_min ≤ x ∧ x ≤ env.domain_max) ∧
    (∀ s a t, (envStep env rs s a).2 = .ok t →
      ∀ x ∈ t.observation, env.domain_min ≤ x ∧ x ≤ env.domain_max) ∧
    (∀ s (a : List ℚ), s.episode_ended = false →
      a.length = s.state.length →
      (envStep env rs s a).1.state
        = clipVec (List.zipWith (· + ·) s.state a)
            env.domain_min env.domain_max) := by
  refine ⟨?_, ?_, ?_⟩
  · intro s x hx
    rw [envReset_snd, currentTimeStep_observation] at hx
    exact envReset_state_mem hwf hd s x hx
  · intro s a t h x hx
    rw [envStep_ok_snd env rs s a h, currentTimeStep_observation] at hx
    exact envStep_ok_state_mem hwf hd s a h x hx
  · intro s a he hl
    rw [envStep_fst_of_not_ended env rs he hl]

/-- Witness for C3 at the concrete sphere environment. -/
theorem C3_witness :
    (envStep envW constStream stW [1]).1.state
      = clipVec (List.zipWith (· + ·) stW.state [1])
          envW.domain_min envW.domain_max :=
  (C3_domain_containment envW constStream constStream_wf
    (by norm_num [envW])).2.2 stW [1] rfl rfl

/-! ## Claim C5 -/

/-- C5: `step(action)` in a terminal state does not fail; it performs
exactly the state update of an explicit `reset()` (ignoring the
action) and returns the resulting FIRST time step, whose state has
step counter 0, cleared episode flag, a fresh in-range function index
and an in-domain position. -/
theorem C5_terminal_step_resets (env : Env) (rs : RandomStream)
    (s : EnvState) (h : s.episode_ended = true) :
    (∀ a, envStep env rs s a
      = ((envReset env rs s).1, .ok (envReset env rs s).2)) ∧
    (∀ a a', envStep env rs s a = envStep env rs s a') ∧
    (envReset env rs s).1.steps_taken = 0 ∧
    (envReset env rs s).1.episode_ended = false ∧
    (0 < env.functions.length →
      (envReset env rs s).1.fn_index < env.functions.length) ∧
    (WFStream rs → env.domain_min ≤ env.domain_max →
      ∀ x ∈ (envReset env rs s).1.state,
        env.domain_min ≤ x ∧ x ≤ env.domain_max) ∧
    (envReset env rs s).2.step_type = .FIRST := by
  refine ⟨fun a => envStep_of_ended env rs h a, ?_, by rw [envReset_fst],
    by rw [envReset_fst], ?_, ?_, (envReset_first env rs s).1⟩
  · intro a a'
    rw [envStep_of_ended env rs h a, envStep_of_ended env rs h a']
  · intro hn
    rw [envReset_fst]
    exact uniformNat_lt rs _ hn
  · intro hwf hd
    exact envReset_state_mem hwf hd s

/-- Witness for C5: stepping the concrete terminal state `stT`. -/
theorem C5_witness :
    (∀ a, envStep envW constStream stT a
      = ((envReset envW constStream stT).1,
         .ok (envReset envW constStream stT).2)) ∧
    (∀ a a', envStep envW constStream stT a = envStep envW constStream stT a') ∧
    (envReset envW constStream stT).1.steps_taken = 0 ∧
    (envReset envW constStream stT).1.episode_ended = false ∧
    (0 < envW.functions.length →
      (envReset envW constStream stT).1.fn_index < envW.functions.length) ∧
    (WFStream constStream → envW.domain_min ≤ envW.domain_max →
      ∀ x ∈ (envReset envW constStream stT).1.state,
        envW.domain_min ≤ x ∧ x ≤ envW.domain_max) ∧
    (envReset envW constStream stT).2.step_type = .FIRST :=
  C5_terminal_step_resets envW constStream stT rfl

/-! ## Claim C6 -/

/-- C6 as stated is false: the discount of a LAST time step equals
1.0.  Concretely, with duration 1 the first `step` from the
post-construction state returns a LAST time step with discount 1. -/
theorem C6_counterexample :
    mkEnv constStream [sphereFn] 1 1 = Except.ok (envD1, stW) ∧
    (envStep envD1 constStream stW [0]).2
      = Except.ok { step_type := .LAST, reward := 0, discount := 1,
                    observation := [0] } := by
  refine ⟨mkEnv_envD1, ?_⟩
  norm_num [envStep, broadcastAdd, currentTimeStep, clipVec, clipQ,
    evalCatalog, envD1, stW, sphereFn, min_def, max_def]

/-- C6 amended: the discount of every returned time step equals 1.0,
for FIRST, MID and LAST step types alike (`_current_time_step` builds
every branch with the constant `tf.constant(1.0)`). -/
theorem C6_discount_always_one (env : Env) (rs : RandomStream) (s : EnvState) :
    (currentTimeStep env s).discount = 1 ∧
    (envReset env rs s).2.discount = 1 ∧
    (∀ a t, (envStep env rs s a).2 = .ok t → t.discount = 1) := by
  refine ⟨currentTimeStep_discount env s, ?_, ?_⟩
  · rw [envReset_snd]
    exact currentTimeStep_discount env _
  · intro a t h
    rw [envStep_ok_snd env rs s a h]
    exact currentTimeStep_discount env _

/-! ## Claim C7 -/

/-- C7 as stated is false: only the empty catalog fails at
construction.  A negative duration, a zero dimensionality, and a
catalog whose functions have mismatched domains are all accepted and
yield an environment instance. -/
theorem C7_counterexample :
    (mkEnv constStream [] 2 50000).toOption.isSome = false ∧
    (mkEnv constStream [sphereFn] 2 (-5)).toOption.isSome = true ∧
    (mkEnv constStream [sphereFn] 0 50000).toOption.isSome = true ∧
    (mkEnv constStream [sphereFn, sphereFnWide] 2 50000).toOption.isSome
      = true :=
  ⟨rfl, rfl, rfl, rfl⟩

/-- C7 amended: construction fails exactly for an empty function
catalog (the `IndexError` from `functions[0]`); every non-empty
catalog is accepted regardless of domain agreement between the
functions and of the sign of duration or dimensionality. -/
theorem C7_construction_failures (rs : RandomStream) (dims : ℕ) (dur : ℤ) :
    (∃ e, mkEnv rs [] dims dur = .error e) ∧
    (∀ f fns, (mkEnv rs (f :: fns) dims dur).toOption.isSome = true) :=
  ⟨⟨_, rfl⟩, fun _ _ => rfl⟩

/-! ## Claim C10 -/

/-- C10: immediately after a successful construction the environment
is READY: step counter 0, episode flag cleared, a position of the
configured dimensionality drawn inside the domain, a valid function
index, and `current_time_step()` is a FIRST step with reward 0,
discount 1 and the position as observation. -/
theorem C10_constructed_ready (rs : RandomStream) (fns : List ObjectiveFn)
    (dims : ℕ) (dur : ℤ) (env : Env) (s : EnvState)
    (h : mkEnv rs fns dims dur = .ok (env, s)) :
    s.steps_taken = 0 ∧ s.episode_ended = false ∧
    s.state.length = dims ∧ s.fn_index < fns.length ∧
    (WFStream rs → env.domain_min ≤ env.domain_max →
      ∀ x ∈ s.state, env.domain_min ≤ x ∧ x ≤ env.domain_max) ∧
    (currentTimeStep env s).step_type = .FIRST ∧
    (currentTimeStep env s).reward = 0 ∧
    (currentTimeStep env s).discount = 1 ∧
    (currentTimeStep env s).observation = s.state := by
  cases fns with
  | nil => exact absurd h (by simp [mkEnv])
  | cons f0 rest =>
    simp only [mkEnv, Except.ok.injEq, Prod.mk.injEq] at h
    obtain ⟨henv, hs⟩ := h
    subst henv
    subst hs
    refine ⟨rfl, rfl, by simp, ?_, ?_, ?_, ?_, ?_, ?_⟩
    · exact uniformNat_lt rs _ (by simp)
    · intro hwf hd x hx
      simp only [List.mem_map] at hx
      rcases hx with ⟨i, _, rfl⟩
      exact uniformScaled_mem hwf _ hd
    · rw [currentTimeStep_of_first (by norm_num)]
    · rw [currentTimeStep_of_first (by norm_num)]
    · rw [currentTimeStep_of_first (by norm_num)]
    · rw [currentTimeStep_of_first (by norm_num)]

/-- Witness for C10: the concrete construction
`mkEnv constStream [sphereFn] 1 3`. -/
theorem C10_witness :
    stW.steps_taken = 0 ∧ stW.episode_ended = false ∧
    stW.state.length = 1 ∧ stW.fn_index < [sphereFn].length ∧
    (WFStream constStream → envW.domain_min ≤ envW.domain_max →
      ∀ x ∈ stW.state, envW.domain_min ≤ x ∧ x ≤ envW.domain_max) ∧
    (currentTimeStep envW stW).step_type = .FIRST ∧
    (currentTimeStep envW stW).reward = 0 ∧
    (currentTimeStep envW stW).discount = 1 ∧
    (currentTimeStep envW stW).observation = stW.state :=
  C10_constructed_ready constStream [sphereFn] 1 3 envW stW mkEnv_envW

/-! ## Claim C1 -/

lemma iterSteps_succ (env : Env) (rs : RandomStream) (a : ℕ → List ℚ)
    (s : EnvState) (n : ℕ) :
    iterSteps env rs a s (n + 1)
      = envStep env rs (iterSteps env rs a s n).1 (a n) := rfl

/-- The per-step invariant of an episode of duration `D`: after
`i ≤ D` steps from a fresh state, the counter is `i`, the episode flag
is set exactly when `D ≤ i`, and the position still has the configured
dimensionality. -/
lemma iterSteps_inv (env : Env) (rs : RandomStream) (a : ℕ → List ℚ)
    (s0 : EnvState) (D : ℕ) (hD : 0 < D) (hdur : env.duration = (D : ℤ))
    (hs : s0.steps_taken = 0) (he : s0.episode_ended = false)
    (hlen : s0.state.length = env.dims)
    (ha : ∀ i, (a i).length = env.dims) :
    ∀ i, i ≤ D →
      (iterSteps env rs a s0 i).1.steps_taken = (i : ℤ) ∧
      (iterSteps env rs a s0 i).1.episode_ended = decide (D ≤ i) ∧
      (iterSteps env rs a s0 i).1.state.length = env.dims := by
  intro i
  induction i with
  | zero =>
    intro _
    refine ⟨by simpa [iterSteps] using hs, ?_, by simpa [iterSteps] using hlen⟩
    simp [iterSteps, he, Nat.not_le.mpr hD]
  | succ i ih =>
    intro hiD
    have hilt : i < D := hiD
    obtain ⟨h1, h2, h3⟩ := ih (Nat.le_of_lt hilt)
    have hef : (iterSteps env rs a s0 i).1.episode_ended = false := by
      rw [h2]
      simp [Nat.not_le.mpr hilt]
    have hl : (a i).length = (iterSteps env rs a s0 i).1.state.length := by
      rw [h3]
      exact ha i
    rw [iterSteps_succ, envStep_fst_of_not_ended env rs hef hl]
    refine ⟨?_, ?_, ?_⟩
    · simp [h1]
    · simp only [h1, hdur, ge_iff_le]
      by_cases hc : D ≤ i + 1
      · have hc' : ((D : ℤ) ≤ (i : ℤ) + 1) := by exact_mod_cast hc
        simp [hc, hc']
      · have hc' : ¬ ((D : ℤ) ≤ (i : ℤ) + 1) := by exact_mod_cast hc
        simp [hc, hc']
    · simp [clipVec_length, h3, ha i]

/-- C1: from a fresh `reset`, with duration `D > 0` and well-shaped
actions, the first `D - 1` `step` calls return MID, the `D`-th returns
LAST, the episode flag is set exactly when the post-increment counter
reaches `D`, and a `(D+1)`-th call returns FIRST (via the implicit
reset). -/
theorem C1_episode_length (env : Env) (rs : RandomStream) (a : ℕ → List ℚ)
    (sp : EnvState) (D : ℕ) (hD : 0 < D) (hdur : env.duration = (D : ℤ))
    (ha : ∀ i, (a i).length = env.dims) :
    (∀ i, 1 ≤ i → i < D →
      ∃ t, (iterSteps env rs a (envReset env rs sp).1 i).2 = .ok t ∧
        t.step_type = .MID) ∧
    (∃ t, (iterSteps env rs a (envReset env rs sp).1 D).2 = .ok t ∧
      t.step_type = .LAST) ∧
    (∀ i, i ≤ D →
      (iterSteps env rs a (envReset env rs sp).1 i).1.episode_ended
        = decide (i = D)) ∧
    (∃ t, (iterSteps env rs a (envReset env rs sp).1 (D + 1)).2 = .ok t ∧
      t.step_type = .FIRST) := by
  set s0 := (envReset env rs sp).1 with hs0
  have hs : s0.steps_taken = 0 := by rw [hs0, envReset_fst]
  have he : s0.episode_ended = false := by rw [hs0, envReset_fst]
  have hlen : s0.state.length = env.dims := envReset_state_length env rs sp
  have inv := iterSteps_inv env rs a s0 D hD hdur hs he hlen ha
  have mid_last : ∀ i, 1 ≤ i → i ≤ D →
      ∃ t, (iterSteps env rs a s0 i).2 = .ok t ∧
        t = currentTimeStep env (iterSteps env rs a s0 i).1 := by
    intro i h1 h2
    cases i with
    | zero => omega
    | succ j =>
      obtain ⟨g1, g2, g3⟩ := inv j (by omega)
      have gef : (iterSteps env rs a s0 j).1.episode_ended = false := by
        rw [g2]
        simp [Nat.not_le.mpr (show j < D by omega)]
      have gl : (a j).length = (iterSteps env rs a s0 j).1.state.length := by
        rw [g3]
        exact ha j
      rw [iterSteps_succ, envStep_snd_of_not_ended env rs gef gl]
      exact ⟨_, rfl, rfl⟩
  refine ⟨?_, ?_, ?_, ?_⟩
  · intro i h1 h2
    obtain ⟨t, ht, rfl⟩ := mid_last i h1 (by omega)
    obtain ⟨g1, g2, _⟩ := inv i (by omega)
    refine ⟨_, ht, ?_⟩
    rw [currentTimeStep_of_mid ?_ ?_]
    · rw [g1]
      omega
    · rw [g2]
      simp [Nat.not_le.mpr h2]
  · obtain ⟨t, ht, rfl⟩ := mid_last D hD le_rfl
    obtain ⟨g1, g2, _⟩ := inv D le_rfl
    refine ⟨_, ht, ?_⟩
    rw [currentTimeStep_of_last ?_ ?_]
    · rw [g1]
      omega
    · rw [g2]
      simp
  · intro i hi
    obtain ⟨_, g2, _⟩ := inv i hi
    rw [g2]
    exact decide_eq_decide.mpr (by omega)
  · obtain ⟨_, g2, _⟩ := inv D le_rfl
    have : (iterSteps env rs a s0 D).1.episode_ended = true := by
      rw [g2]
      simp
    rw [iterSteps_succ, envStep_of_ended env rs this (a D)]
    exact ⟨_, rfl, (envReset_first env rs _).1⟩

/-- Witness for C1: the sphere environment with duration 3 driven by
the constant action `[1]`. -/
theorem C1_witness :
    (∀ i, 1 ≤ i → i < 3 →
      ∃ t, (iterSteps envW constStream (fun _ => [1])
        (envReset envW constStream stW).1 i).2 = .ok t ∧
        t.step_type = .MID) ∧
    (∃ t, (iterSteps envW constStream (fun _ => [1])
      (envReset envW constStream stW).1 3).2 = .ok t ∧
      t.step_type = .LAST) ∧
    (∀ i, i ≤ 3 →
      (iterSteps envW constStream (fun _ => [1])
        (envReset envW constStream stW).1 i).1.episode_ended
        = decide (i = 3)) ∧
    (∃ t, (iterSteps envW constStream (fun _ => [1])
      (envReset envW constStream stW).1 (3 + 1)).2 = .ok t ∧
      t.step_type = .FIRST) :=
  C1_episode_length envW constStream (fun _ => [1]) stW 3
    (by norm_num) rfl (fun _ => rfl)

/-! ## Claim C4 -/

/-- C4: two environments constructed from the same seed (hence the
same counter-based stream), catalog, dimensionality and duration,
driven by the identical sequence of `reset`/`step` calls, produce
identical sequences of time steps and end in identical states. -/
theorem C4_determinism (alg : ℕ → RandomStream) (seed : ℕ)
    (fns : List ObjectiveFn) (dims : ℕ) (dur : ℤ)
    (e1 : Env) (s1 : EnvState) (e2 : Env) (s2 : EnvState)
    (h1 : mkEnv (RandomStream.fromSeed alg seed) fns dims dur = .ok (e1, s1))
    (h2 : mkEnv (RandomStream.fromSeed alg seed) fns dims dur = .ok (e2, s2))
    (calls : List EnvCall) :
    runCalls e1 (RandomStream.fromSeed alg seed) s1 calls
      = runCalls e2 (RandomStream.fromSeed alg seed) s2 calls := by
  rw [h1] at h2
  obtain ⟨rfl, rfl⟩ := Prod.ext_iff.mp (Except.ok.inj h2)
  rfl

/-- Witness for C4: the sphere environment from seed 42 under a
3-call driver sequence. -/
theorem C4_witness :
    runCalls envW (RandomStream.fromSeed (fun _ => constStream) 42) stW
      [.step [1], .reset, .step [2]]
    = runCalls envW (RandomStream.fromSeed (fun _ => constStream) 42) stW
      [.step [1], .reset, .step [2]] :=
  C4_determinism (fun _ => constStream) 42 [sphereFn] 1 3 envW stW envW stW
    mkEnv_envW mkEnv_envW [.step [1], .reset, .step [2]]

/-! ## Claim C8 -/

/-- C8 as stated is false: an action of the wrong dimensionality does
not always fail.  With dimensionality 2, the length-1 action `[1]`
broadcasts: the call succeeds, returns a MID time step, and mutates
the state. -/
theorem C8_counterexample :
    mkEnv constStream [sphereFn] 2 5 = Except.ok (envD2, stD2) ∧
    List.length [(1 : ℚ)] ≠ envD2.dims ∧
    (envStep envD2 constStream stD2 [1]).2
      = Except.ok { step_type := .MID, reward := -2, discount := 1,
                    observation := [1, 1] } ∧
    (envStep envD2 constStream stD2 [1]).1 ≠ stD2 := by
  refine ⟨mkEnv_envD2, by norm_num [envD2], ?_, ?_⟩
  · norm_num [envStep, broadcastAdd, currentTimeStep, clipVec, clipQ,
      evalCatalog, envD2, stD2, sphereFn, min_def, max_def]
  · norm_num [envStep, broadcastAdd, clipVec, clipQ, envD2, stD2,
      min_def, max_def, EnvState.mk.injEq]

/-- C8 amended: in a non-terminal state, an action whose length is
neither the position's dimensionality nor 1 (the broadcastable case)
fails immediately and leaves every variable unchanged; a length-1
action broadcasts and succeeds, and in a terminal state the action is
ignored entirely (implicit reset, claim C5). -/
theorem C8_malformed_action (env : Env) (rs : RandomStream) (s : EnvState)
    (a : List ℚ) (hended : s.episode_ended = false)
    (h1 : a.length ≠ s.state.length) (h2 : a.length ≠ 1) :
    (envStep env rs s a).1 = s ∧
    (envStep env rs s a).2
      = .error "InvalidArgumentError: incompatible shapes" := by
  rw [envStep_error env rs hended h1 h2]
  exact ⟨rfl, rfl⟩

/-- Witness for C8 (amended): a length-3 action against
dimensionality 2. -/
theorem C8_witness :
    (envStep envD2 constStream stD2 [1, 2, 3]).1 = stD2 ∧
    (envStep envD2 constStream stD2 [1, 2, 3]).2
      = .error "InvalidArgumentError: incompatible shapes" :=
  C8_malformed_action envD2 constStream stD2 [1, 2, 3] rfl
    (by decide) (by decide)

/-! ## Claim C9: best-value tracking of the baselines -/

lemma minsFrom_length {σ : Type} (stp : σ → σ) (val : σ → ℚ) :
    ∀ (n : ℕ) (x : σ) (m : ℚ), (minsFrom stp val x m n).length = n := by
  intro n
  induction n with
  | zero => intro x m; rfl
  | succ n ih => intro x m; simp [minsFrom, ih]

lemma minsFrom_get {σ : Type} (stp : σ → σ) (val : σ → ℚ) :
    ∀ (n : ℕ) (x : σ) (m : ℚ) (i : ℕ), i < n →
      (minsFrom stp val x m n)[i]? = some (runBest stp val x m (i + 1)) := by
  intro n
  induction n with
  | zero => intro x m i hi; omega
  | succ n ih =>
    intro x m i hi
    cases i with
    | zero => simp [minsFrom, runBest]
    | succ i => simpa [minsFrom, runBest] using ih _ _ i (by omega)

lemma runBest_le_self {σ : Type} (stp : σ → σ) (val : σ → ℚ) :
    ∀ (k : ℕ) (x : σ) (m : ℚ), runBest stp val x m k ≤ m := by
  intro k
  induction k with
  | zero => intro x m; exact le_rfl
  | succ k ih =>
    intro x m
    exact le_trans (ih (stp x) (min (val (stp x)) m)) (min_le_right _ _)

lemma runBest_succ_le {σ : Type} (stp : σ → σ) (val : σ → ℚ) :
    ∀ (k : ℕ) (x : σ) (m : ℚ),
      runBest stp val x m (k + 1) ≤ runBest stp val x m k := by
  intro k
  induction k with
  | zero =>
    intro x m
    exact min_le_right _ _
  | succ k ih =>
    intro x m
    exact ih (stp x) (min (val (stp x)) m)

lemma runBest_le_iterate {σ : Type} (stp : σ → σ) (val : σ → ℚ) :
    ∀ (k : ℕ) (x : σ) (m : ℚ) (j : ℕ), 1 ≤ j → j ≤ k →
      runBest stp val x m k ≤ val (stp^[j] x) := by
  intro k
  induction k with
  | zero => intro x m j h1 h2; omega
  | succ k ih =>
    intro x m j h1 h2
    cases j with
    | zero => omega
    | succ j =>
      rw [Function.iterate_succ_apply]
      cases Nat.eq_zero_or_pos j with
      | inl hj =>
        subst hj
        simp only [Function.iterate_zero, id_eq]
        exact le_trans (runBest_le_self stp val k _ _) (min_le_left _ _)
      | inr hj =>
        exact ih (stp x) (min (val (stp x)) m) j hj (by omega)

lemma runBest_attained {σ : Type} (stp : σ → σ) (val : σ → ℚ) :
    ∀ (k : ℕ) (x : σ) (m : ℚ),
      runBest stp val x m k = m ∨
      ∃ j, 1 ≤ j ∧ j ≤ k ∧ runBest stp val x m k = val (stp^[j] x) := by
  intro k
  induction k with
  | zero => intro x m; exact Or.inl rfl
  | succ k ih =>
    intro x m
    rcases ih (stp x) (min (val (stp x)) m) with h | ⟨j, hj1, hj2, hj3⟩
    · rcases min_cases (val (stp x)) m with ⟨he, _⟩ | ⟨he, _⟩
      · refine Or.inr ⟨1, le_rfl, by omega, ?_⟩
        rw [show runBest stp val x m (k + 1)
            = runBest stp val (stp x) (min (val (stp x)) m) k from rfl, h, he]
        simp
      · refine Or.inl ?_
        rw [show runBest stp val x m (k + 1)
            = runBest stp val (stp x) (min (val (stp x)) m) k from rfl, h, he]
    · refine Or.inr ⟨j + 1, by omega, by omega, ?_⟩
      rw [show runBest stp val x m (k + 1)
          = runBest stp val (stp x) (min (val (stp x)) m) k from rfl, hj3,
        Function.iterate_succ_apply]

lemma GDgo_fst (f : ObjectiveFn) (lr : ℚ) :
    ∀ (n t : ℕ) (pos : List ℚ) (bestsRev : List ℚ) (it : ℕ),
      (GDgo f lr n t pos bestsRev it).1
        = bestsRev.reverse
          ++ minsFrom (gdUpdate f lr) f.evaluate pos bestsRev.headI n := by
  intro n
  induction n with
  | zero => intro t pos bestsRev it; simp [GDgo, minsFrom]
  | succ n ih =>
    intro t pos bestsRev it
    rw [show GDgo f lr (n + 1) t pos bestsRev it
        = GDgo f lr n (t + 1) (gdUpdate f lr pos)
            (min (f.evaluate (gdUpdate f lr pos)) bestsRev.headI :: bestsRev)
            (if f.evaluate (gdUpdate f lr pos) < bestsRev.headI then t else it)
      from rfl, ih]
    simp [minsFrom]

lemma GD_fst (f : ObjectiveFn) (pos : List ℚ) (steps : ℕ) :
    (GD f pos steps).1
      = f.evaluate pos
        :: minsFrom (gdUpdate f (gd_lrs f.name)) f.evaluate pos
            (f.evaluate pos) steps := by
  rw [GD, GDgo_fst]
  simp

lemma NAGgo_fst (f : ObjectiveFn) (lr momentum : ℚ) :
    ∀ (n t : ℕ) (pv : List ℚ × List ℚ) (bestsRev : List ℚ) (it : ℕ),
      (NAGgo f lr momentum n t pv bestsRev it).1
        = bestsRev.reverse
          ++ minsFrom (nagUpdate f lr momentum)
              (fun q => f.evaluate q.1) pv bestsRev.headI n := by
  intro n
  induction n with
  | zero => intro t pv bestsRev it; simp [NAGgo, minsFrom]
  | succ n ih =>
    intro t pv bestsRev it
    rw [show NAGgo f lr momentum (n + 1) t pv bestsRev it
        = NAGgo f lr momentum n (t + 1) (nagUpdate f lr momentum pv)
            (min (f.evaluate (nagUpdate f lr momentum pv).1) bestsRev.headI
              :: bestsRev)
            (if f.evaluate (nagUpdate f lr momentum pv).1 < bestsRev.headI
              then t else it)
      from rfl, ih]
    simp [minsFrom]

lemma NAG_fst (f : ObjectiveFn) (pos : List ℚ) (steps : ℕ) :
    (NAG f pos steps).1
      = f.evaluate pos
        :: minsFrom (nagUpdate f (nag_params f.name).1 (nag_params f.name).2)
            (fun q => f.evaluate q.1) (pos, List.replicate pos.length 0)
            (f.evaluate pos) steps := by
  rw [NAG, NAGgo_fst]
  simp

lemma gdPosIter_eq_iterate (f : ObjectiveFn) (lr : ℚ) (pos : List ℚ) :
    ∀ i, gdPosIter f lr pos i = (gdUpdate f lr)^[i] pos := by
  intro i
  induction i with
  | zero => rfl
  | succ i ih => rw [gdPosIter, ih, Function.iterate_succ_apply']

lemma nagIter_eq_iterate (f : ObjectiveFn) (lr momentum : ℚ)
    (pv : List ℚ × List ℚ) :
    ∀ i, nagIter f lr momentum pv i = (nagUpdate f lr momentum)^[i] pv := by
  intro i
  induction i with
  | zero => rfl
  | succ i ih => rw [nagIter, ih, Function.iterate_succ_apply']

lemma GD_get (f : ObjectiveFn) (pos : List ℚ) (steps : ℕ) :
    ∀ i, i ≤ steps →
      (GD f pos steps).1[i]?
        = some (runBest (gdUpdate f (gd_lrs f.name)) f.evaluate pos
            (f.evaluate pos) i) := by
  intro i hi
  rw [GD_fst]
  cases i with
  | zero => simp [runBest]
  | succ i =>
    simpa using minsFrom_get _ _ steps pos (f.evaluate pos) i (by omega)

lemma NAG_get (f : ObjectiveFn) (pos : List ℚ) (steps : ℕ) :
    ∀ i, i ≤ steps →
      (NAG f pos steps).1[i]?
        = some (runBest
            (nagUpdate f (nag_params f.name).1 (nag_params f.name).2)
            (fun q => f.evaluate q.1) (pos, List.replicate pos.length 0)
            (f.evaluate pos) i) := by
  intro i hi
  rw [NAG_fst]
  cases i with
  | zero => simp [runBest]
  | succ i =>
    simpa using minsFrom_get _ _ steps _ (f.evaluate pos) i (by omega)

/-- C9: for GD and NAG the returned best-value sequence has one entry
per iteration plus the initial one, is non-increasing at every index,
and its entry at index `i` is the minimum of all objective evaluations
performed up to and including iteration `i` (a lower bound on each of
them, and attained at one of them; entry 0 is the initial position's
value). -/
theorem C9_baseline_best_tracking (f : ObjectiveFn) (pos : List ℚ)
    (steps : ℕ) :
    ((GD f pos steps).1.length = steps + 1 ∧
      (∀ i x y, i + 1 ≤ steps →
        (GD f pos steps).1[i]? = some x →
        (GD f pos steps).1[i + 1]? = some y → y ≤ x) ∧
      (∀ i, i ≤ steps → ∃ m, (GD f pos steps).1[i]? = some m ∧
        (∀ j, j ≤ i → m ≤ gdVals f pos j) ∧
        (∃ j, j ≤ i ∧ m = gdVals f pos j))) ∧
    ((NAG f pos steps).1.length = steps + 1 ∧
      (∀ i x y, i + 1 ≤ steps →
        (NAG f pos steps).1[i]? = some x →
        (NAG f pos steps).1[i + 1]? = some y → y ≤ x) ∧
      (∀ i, i ≤ steps → ∃ m, (NAG f pos steps).1[i]? = some m ∧
        (∀ j, j ≤ i → m ≤ nagVals f pos j) ∧
        (∃ j, j ≤ i ∧ m = nagVals f pos j))) := by
  constructor
  · refine ⟨?_, ?_, ?_⟩
    · rw [GD_fst]
      simp [minsFrom_length]
    · intro i x y hi hx hy
      rw [GD_get f pos steps i (by omega)] at hx
      rw [GD_get f pos steps (i + 1) (by omega)] at hy
      obtain rfl := Option.some.inj hx
      obtain rfl := Option.some.inj hy
      exact runBest_succ_le _ _ i pos _
    · intro i hi
      refine ⟨_, GD_get f pos steps i hi, ?_, ?_⟩
      · intro j hj
        cases j with
        | zero => exact runBest_le_self _ _ i pos _
        | succ j =>
          rw [gdVals, gdPosIter_eq_iterate]
          exact runBest_le_iterate _ _ i pos _ (j + 1) (by omega) hj
      · rcases runBest_attained (gdUpdate f (gd_lrs f.name)) f.evaluate i
            pos (f.evaluate pos) with h | ⟨j, _, hj2, hj3⟩
        · exact ⟨0, by omega, h⟩
        · refine ⟨j, hj2, ?_⟩
          rw [hj3, gdVals, gdPosIter_eq_iterate]
  · refine ⟨?_, ?_, ?_⟩
    · rw [NAG_fst]
      simp [minsFrom_length]
    · intro i x y hi hx hy
      rw [NAG_get f pos steps i (by omega)] at hx
      rw [NAG_get f pos steps (i + 1) (by omega)] at hy
      obtain rfl := Option.some.inj hx
      obtain rfl := Option.some.inj hy
      exact runBest_succ_le _ _ i _ _
    · intro i hi
      refine ⟨_, NAG_get f pos steps i hi, ?_, ?_⟩
      · intro j hj
        cases j with
        | zero => exact runBest_le_self _ _ i _ _
        | succ j =>
          rw [nagVals, nagIter_eq_iterate]
          exact runBest_le_iterate _ _ i _ _ (j + 1) (by omega) hj
      · rcases runBest_attained
            (nagUpdate f (nag_params f.name).1 (nag_params f.name).2)
            (fun q => f.evaluate q.1) i
            (pos, List.replicate pos.length 0) (f.evaluate pos)
            with h | ⟨j, _, hj2, hj3⟩
        · exact ⟨0, by omega, h⟩
        · refine ⟨j, hj2, ?_⟩
          rw [hj3, nagVals, nagIter_eq_iterate]
